import Mathlib

/-!
Verification development for the `poker_multiagent` tool layer
(`src/poker_multiagent/tools.py`) and the heads-up Texas Hold'em engine it
drives.  The engine itself (`HoldemTable`, `Action`, `PlayerCycle`,
`Stage`) is not part of the checked-in sources, so it is modelled from the
specification; the tool layer is translated directly from `tools.py`.
All chip amounts are `Int`, mirroring integer chip counts.
-/

namespace Poker

/-- Modelled from the spec: a playing card, rank 2..14 (14 = Ace) times one
of 4 suits.  Immutable value type (spec section 3). -/
structure Card where
  rank : Nat
  suit : Nat
deriving DecidableEq, Repr, Inhabited

/-- Modelled from the spec: string rendering of a card, used by the tool
layer where the source does `str(card)`. -/
def Card.toStr (c : Card) : String :=
  let r :=
    if c.rank = 14 then "A"
    else if c.rank = 13 then "K"
    else if c.rank = 12 then "Q"
    else if c.rank = 11 then "J"
    else if c.rank = 10 then "T"
    else toString c.rank
  let s :=
    if c.suit = 0 then "C"
    else if c.suit = 1 then "D"
    else if c.suit = 2 then "H"
    else "S"
  r ++ s

/-- Modelled from the spec: the stage state machine vocabulary
PREFLOP, FLOP, TURN, RIVER, SHOWDOWN, END_HIDDEN (spec section 3). -/
inductive Stage where
  | PREFLOP
  | FLOP
  | TURN
  | RIVER
  | SHOWDOWN
  | END_HIDDEN
deriving DecidableEq, Repr

/-- Modelled from the spec: printable stage name, as used by
`game_table.stage.name` in the tool layer. -/
def Stage.nameStr : Stage → String
  | .PREFLOP => "PREFLOP"
  | .FLOP => "FLOP"
  | .TURN => "TURN"
  | .RIVER => "RIVER"
  | .SHOWDOWN => "SHOWDOWN"
  | .END_HIDDEN => "END_HIDDEN"

/-- Modelled from the spec: the closed Action enumeration
FOLD, CHECK, CALL, RAISE size variants, ALL_IN (spec section 3; the
RAISE_3BB variant name appears in the tool layer docstring, the other
variants are pot-relative sizes per the spec). -/
inductive Action where
  | FOLD
  | CHECK
  | CALL
  | RAISE_3BB
  | RAISE_HALF_POT
  | RAISE_POT
  | RAISE_2POT
  | ALL_IN
deriving DecidableEq, Repr

/-- Modelled from the spec: printable enum member name, mirroring
`action.name` in Python. -/
def Action.nameStr : Action → String
  | .FOLD => "FOLD"
  | .CHECK => "CHECK"
  | .CALL => "CALL"
  | .RAISE_3BB => "RAISE_3BB"
  | .RAISE_HALF_POT => "RAISE_HALF_POT"
  | .RAISE_POT => "RAISE_POT"
  | .RAISE_2POT => "RAISE_2POT"
  | .ALL_IN => "ALL_IN"

/-- Modelled from the spec: all enum members in declaration order,
mirroring iteration over the Python Action enum. -/
def Action.all : List Action :=
  [.FOLD, .CHECK, .CALL, .RAISE_3BB, .RAISE_HALF_POT, .RAISE_POT,
   .RAISE_2POT, .ALL_IN]

/-- Modelled from the spec: member lookup by (already upper-cased) name,
mirroring Python `Action[name]` which raises `KeyError` on a miss. -/
def Action.ofName (s : String) : Option Action :=
  Action.all.find? (fun a => a.nameStr = s)

/-- Modelled from the spec: one seated player — seat index, name,
non-negative integer stack, hole cards, has-folded and is-all-in flags
(spec section 3, Player). -/
structure PlayerSt where
  seat : Nat
  name : String
  stack : Int
  cards : List Card
  hasFolded : Bool
  isAllIn : Bool
deriving DecidableEq, Repr, Inhabited

/-- Modelled from the spec: error taxonomy of the engine
(spec section 7). -/
inductive EngineError where
  | DeckExhausted
  | InsufficientStack
  | IllegalAction
  | NoActivePlayer
deriving DecidableEq, Repr

/-- Modelled from the spec: the full `HoldemTable` state — players, pot
ledger (`community_pot`, `current_round_pot`, `player_pots`), stage,
community cards, deck, player-cycle bookkeeping (current player, dealer
position, raise counts, acted-since-last-raise flags), terminal flag,
winner index, and the construction-time configuration. -/
structure GameState where
  players : List PlayerSt
  playerPots : List Int
  communityPot : Int
  currentRoundPot : Int
  stage : Stage
  tableCards : List Card
  deck : List Card
  currentPlayer : Nat
  dealerPos : Nat
  raisesThisRound : List Nat
  actedSinceRaise : List Bool
  done : Bool
  winnerIx : Option Nat
  initialStacks : Int
  smallBlind : Int
  bigBlind : Int
  maxRaisesPerPlayerRound : Nat
  raiseIllegalMoves : Bool
deriving DecidableEq, Repr

/-- Chips a seat has committed in the active betting round
(`player_pots[seat]`, defaulting to 0 out of range). -/
def GameState.potOf (s : GameState) (i : Nat) : Int :=
  s.playerPots.getD i 0

/-- Stack of a seat, defaulting to 0 out of range. -/
def GameState.stackOf (s : GameState) (i : Nat) : Int :=
  ((s.players.getD i default).stack)

/-- Modelled from the spec: a seat is contesting the hand when it has not
folded (spec section 4.4, PlayerCycle alive tracking). -/
def GameState.contests (s : GameState) (i : Nat) : Bool :=
  i < s.players.length && !(s.players.getD i default).hasFolded

/-- Seats still contesting the hand, in seat order. -/
def GameState.contestingSeats (s : GameState) : List Nat :=
  (List.range s.players.length).filter (fun i => s.contests i)

/-- Modelled from the spec: a seat that can still act this round —
contesting and not all-in (spec section 4.4). -/
def GameState.canAct (s : GameState) (i : Nat) : Bool :=
  s.contests i && !(s.players.getD i default).isAllIn

/-- Seats that can still act this round, in seat order. -/
def GameState.canActSeats (s : GameState) : List Nat :=
  (List.range s.players.length).filter (fun i => s.canAct i)

/-- Modelled from the spec: the largest commitment among contesting
players this round (spec section 4.3). -/
def GameState.maxContestingPot (s : GameState) : Int :=
  (s.contestingSeats.map (fun i => s.potOf i)).foldl max 0

/-- Modelled from the spec: `min_call(seat)` — the chip gap between the
seat's current commitment and the largest commitment among contesting
players this round (spec section 4.3); a gap is never negative. -/
def GameState.minCallOf (s : GameState) (i : Nat) : Int :=
  max (s.maxContestingPot - s.potOf i) 0

/-- The `min_call` attribute the tool layer reads: the current player's
minimum call. -/
def GameState.minCall (s : GameState) : Int :=
  s.minCallOf s.currentPlayer

/-! ### Hand evaluation

Modelled from the spec, section 4.2: `evaluate` maps any 5..7 cards to a
totally ordered hand rank — category (high card .. straight flush) with
kicker ranks for tie-break, Ace counting both low and high for straights.
Ranks are encoded into a single natural number, base 15, so that the
numeric order is exactly the lexicographic category/kicker order. -/

/-- Insertion into a descending-sorted list of naturals. -/
def insertDesc (x : Nat) : List Nat → List Nat
  | [] => [x]
  | y :: ys => if x ≥ y then x :: y :: ys else y :: insertDesc x ys

/-- Sort a list of naturals in descending order. -/
def sortDesc (l : List Nat) : List Nat :=
  l.foldr insertDesc []

/-- Modelled from the spec: the high card of a straight formed by the five
given distinct descending ranks, treating A-2-3-4-5 as a 5-high straight,
or `none` when they do not form a straight. -/
def straightHigh (l : List Nat) : Option Nat :=
  match l with
  | [a, b, c, d, e] =>
    if a = b + 1 && b = c + 1 && c = d + 1 && d = e + 1 then some a
    else if a = 14 && b = 5 && c = 4 && d = 3 && e = 2 then some 5
    else none
  | _ => none

/-- Multiplicity of each distinct rank, paired as (count, rank), sorted so
that larger groups come first and equal-sized groups order by rank. -/
def rankGroups (ranks : List Nat) : List (Nat × Nat) :=
  let distinct := (sortDesc ranks).dedup
  let pairs := distinct.map (fun r => (ranks.count r, r))
  (pairs.foldr (fun p acc => insertDesc (p.1 * 15 + p.2) acc) []).map
    (fun n => (n / 15, n % 15))

/-- Base-15 encoding of a category and at most five kickers; preserves the
lexicographic order of (category, kickers) lists of equal length. -/
def encodeRank (category : Nat) (kickers : List Nat) : Nat :=
  ((kickers ++ List.replicate (5 - kickers.length) 0).take 5).foldl
    (fun acc r => acc * 15 + r) category

/-- Modelled from the spec: rank of an exact 5-card hand — straight flush,
quads, full house, flush, straight, trips, two pair, pair, high card, with
kicker tie-breaks (spec section 4.2). -/
def evaluate5 (cs : List Card) : Nat :=
  let ranks := cs.map Card.rank
  let sorted := sortDesc ranks
  let flush := cs.all (fun c => c.suit = (cs.headD default).suit)
  let straight := straightHigh sorted.dedup
  let groups := rankGroups ranks
  match straight, flush with
  | some hi, true => encodeRank 8 [hi]
  | _, _ =>
    match groups with
    | (4, q) :: rest => encodeRank 7 (q :: rest.map Prod.snd)
    | (3, t) :: (2, p) :: _ => encodeRank 6 [t, p]
    | (3, t) :: (3, p) :: _ => encodeRank 6 [max t p, min t p]
    | _ =>
      if flush then encodeRank 5 sorted
      else
        match straight with
        | some hi => encodeRank 4 [hi]
        | none =>
          match groups with
          | (3, t) :: rest => encodeRank 3 (t :: rest.map Prod.snd)
          | (2, p1) :: (2, p2) :: rest =>
            encodeRank 2 (p1 :: p2 :: rest.map Prod.snd)
          | (2, p) :: rest => encodeRank 1 (p :: rest.map Prod.snd)
          | _ => encodeRank 0 sorted

/-- Modelled from the spec: rank of 5 to 7 cards as the best 5-card hand
among all 5-card subsets; deterministic, same cards always give the same
rank (spec section 4.2). -/
def evaluate (cs : List Card) : Nat :=
  ((cs.sublistsLen 5).map evaluate5).foldl max 0

/-! ### Betting: legal moves, commits, and the step function

Modelled from the spec, sections 4.3, 4.4 and 4.6. -/

/-- Modelled from the spec: chips the given action asks the current player
to commit now — the call gap for CALL, call gap plus a big-blind multiple
or a pot-relative amount for the RAISE variants (raise sizing is an
implementation choice the spec leaves open, documented here as
raise-by-that-amount on top of the call), the whole stack for ALL_IN,
nothing for FOLD and CHECK. -/
def GameState.chipsToCommit (s : GameState) (a : Action) : Int :=
  let pot := s.communityPot + s.currentRoundPot
  match a with
  | .FOLD => 0
  | .CHECK => 0
  | .CALL => s.minCall
  | .RAISE_3BB => s.minCall + 3 * s.bigBlind
  | .RAISE_HALF_POT => s.minCall + pot / 2
  | .RAISE_POT => s.minCall + pot
  | .RAISE_2POT => s.minCall + 2 * pot
  | .ALL_IN => s.stackOf s.currentPlayer

/-- Modelled from the spec: raises made by the current player this round. -/
def GameState.raisesOfCurrent (s : GameState) : Nat :=
  s.raisesThisRound.getD s.currentPlayer 0

/-- Whether an action is a raise variant. -/
def Action.isRaise : Action → Bool
  | .RAISE_3BB => true
  | .RAISE_HALF_POT => true
  | .RAISE_POT => true
  | .RAISE_2POT => true
  | _ => false

/-- Modelled from the spec: legality of a single action for the current
player — CHECK iff the minimum call is zero; CALL iff it is positive and
the stack covers it; each RAISE variant iff the raise count is below the
configured maximum and the stack covers the commitment; ALL_IN iff chips
remain; FOLD always (spec section 4.6). -/
def GameState.isLegal (s : GameState) (a : Action) : Bool :=
  match a with
  | .FOLD => true
  | .CHECK => s.minCall = 0
  | .CALL => 0 < s.minCall && s.minCall ≤ s.stackOf s.currentPlayer
  | .ALL_IN => 0 < s.stackOf s.currentPlayer
  | _ =>
    s.raisesOfCurrent < s.maxRaisesPerPlayerRound &&
      0 < s.chipsToCommit a &&
      s.chipsToCommit a ≤ s.stackOf s.currentPlayer

/-- Modelled from the spec: the ordered set of legal moves for the current
player (spec section 4.6, `legal_moves`). -/
def GameState.legalMoves (s : GameState) : List Action :=
  Action.all.filter s.isLegal

/-- Update one player in place; out-of-range indices leave the list
unchanged (as `List.set` does). -/
def updatePlayer (l : List PlayerSt) (i : Nat) (f : PlayerSt → PlayerSt) :
    List PlayerSt :=
  l.set i (f (l.getD i default))

/-- Modelled from the spec: `commit(seat, amount)` moves `amount` chips
from the seat's stack into `player_pots[seat]` and `current_round_pot`;
fails with `InsufficientStack` when the amount exceeds the stack (or is
negative, or the seat does not exist) — legal actions never request more
than a stack (spec section 4.3). -/
def GameState.commit (s : GameState) (i : Nat) (amt : Int) :
    Except EngineError GameState :=
  if i < s.players.length && 0 ≤ amt && amt ≤ s.stackOf i then
    .ok { s with
      players := (updatePlayer s.players i
        (fun p => { p with stack := p.stack - amt })),
      playerPots := s.playerPots.set i (s.potOf i + amt),
      currentRoundPot := s.currentRoundPot + amt }
  else
    .error .InsufficientStack

/-- Modelled from the spec: `collapse_round()` moves the current round's
pot into the community pot and clears the per-player round commitments
(spec section 4.3). -/
def GameState.collapseRound (s : GameState) : GameState :=
  { s with
    communityPot := s.communityPot + s.currentRoundPot,
    currentRoundPot := 0,
    playerPots := List.replicate s.playerPots.length 0 }

/-- Modelled from the spec: `record_action` bookkeeping — the actor has
now acted since the last raise; a raise resets every other seat's acted
flag and bumps the actor's raise count (spec section 4.4). -/
def GameState.recordAction (s : GameState) (i : Nat) (a : Action) :
    GameState :=
  if a.isRaise then
    { s with
      actedSinceRaise :=
        (List.replicate s.actedSinceRaise.length false).set i true,
      raisesThisRound :=
        s.raisesThisRound.set i (s.raisesThisRound.getD i 0 + 1) }
  else
    { s with actedSinceRaise := s.actedSinceRaise.set i true }

/-- Mark the actor all-in when its stack has reached zero. -/
def GameState.markAllIn (s : GameState) (i : Nat) : GameState :=
  if s.stackOf i ≤ 0 then
    { s with players := (updatePlayer s.players i
        (fun p => { p with isAllIn := true })) }
  else s

/-- Modelled from the spec: `round_is_complete()` — every contesting
non-all-in seat has matched the round's highest commitment and has acted
since the last raise, or at most one seat can still act
(spec section 4.4). -/
def GameState.roundComplete (s : GameState) : Bool :=
  s.canActSeats.all
      (fun i => s.potOf i = s.maxContestingPot &&
        s.actedSinceRaise.getD i false) ||
    s.canActSeats.length ≤ 1

/-- Modelled from the spec: `next_to_act()` — the next contesting,
non-all-in seat in table order after the given one, or `none` when no
seat can act (spec section 4.4). -/
def GameState.nextToAct (s : GameState) (i : Nat) : Option Nat :=
  let n := s.players.length
  ((List.range n).map (fun k => (i + 1 + k) % n)).find? s.canAct

/-- Modelled from the spec: `deal(n)` removes and returns `n` cards from
the front of the deck; fails with `DeckExhausted` when fewer remain
(spec section 4.1). -/
def GameState.dealToTable (s : GameState) (n : Nat) :
    Except EngineError GameState :=
  if n ≤ s.deck.length then
    .ok { s with
      tableCards := s.tableCards ++ s.deck.take n,
      deck := s.deck.drop n }
  else
    .error .DeckExhausted

/-- Add chips to one seat's stack; out of range leaves the state
unchanged. -/
def GameState.addToStack (s : GameState) (i : Nat) (amt : Int) :
    GameState :=
  { s with players := (updatePlayer s.players i
      (fun p => { p with stack := p.stack + amt })) }

/-- Modelled from the spec (section 4.6 tie-break policy): the award list
splitting a pot evenly among the winning seats, the indivisible remainder
going to the first of them. -/
def awardShares (winners : List Nat) (pot : Int) : List (Nat × Int) :=
  match winners with
  | [] => []
  | w :: ws =>
    let k : Int := (ws.length : Int) + 1
    (w, pot / k + pot % k) :: ws.map (fun x => (x, pot / k))

/-- Pay a list of (seat, amount) awards into the stacks. -/
def GameState.applyAwards (s : GameState) (l : List (Nat × Int)) :
    GameState :=
  l.foldl (fun t wi => t.addToStack wi.1 wi.2) s

/-- Modelled from the spec: showdown winners — the contesting seats whose
best 5-of-7 hand rank over hole plus community cards is maximal
(spec section 4.6). -/
def GameState.showdownWinners (s : GameState) : List Nat :=
  let rankOf := fun i =>
    evaluate ((s.players.getD i default).cards ++ s.tableCards)
  let best := (s.contestingSeats.map rankOf).foldl max 0
  s.contestingSeats.filter (fun i => rankOf i = best)

/-- Modelled from the spec: resolve the hand at SHOWDOWN — collapse the
round pot, evaluate the contesting hands, pay the pot out by the tie-break
policy, and mark the hand done (spec section 4.6). -/
def GameState.resolveShowdown (s : GameState) : GameState :=
  match s.collapseRound.showdownWinners with
  | [] => { s.collapseRound with done := true, stage := .SHOWDOWN }
  | w :: ws =>
    { (s.collapseRound.applyAwards
        (awardShares (w :: ws) s.collapseRound.communityPot)) with
      communityPot := 0,
      done := true,
      stage := .SHOWDOWN,
      winnerIx := some w }

/-- Modelled from the spec: when a single contesting seat remains, the
hand ends immediately and that seat is awarded the whole pot without a
showdown, its hole cards staying hidden (spec sections 4.4 and 5.7). -/
def GameState.earlyAward (s : GameState) : GameState :=
  match s.collapseRound.contestingSeats with
  | [] => { s.collapseRound with done := true, stage := .END_HIDDEN }
  | w :: _ =>
    { (s.collapseRound.addToStack w s.collapseRound.communityPot) with
      communityPot := 0,
      done := true,
      stage := .END_HIDDEN,
      winnerIx := some w }

/-- Reset the per-round bookkeeping at the start of a betting round. -/
def GameState.startRound (s : GameState) : GameState :=
  { s with
    actedSinceRaise := List.replicate s.players.length false,
    raisesThisRound := List.replicate s.players.length 0 }

/-- Modelled from the spec: the stage transition table — how many
community cards the next stage deals and what it is, or `none` past the
RIVER (spec section 4.5). -/
def GameState.stagePlan (s : GameState) : Option (Nat × Stage) :=
  match s.stage with
  | .PREFLOP => some (3, .FLOP)
  | .FLOP => some (1, .TURN)
  | .TURN => some (1, .RIVER)
  | _ => none

/-- Modelled from the spec: advance the stage state machine after a
completed betting round — collapse the pot, deal 3/1/1 community cards
into FLOP/TURN/RIVER, resolve at SHOWDOWN; when nobody can act (all
contesting seats all-in) keep advancing, dealing the remaining community
cards without further betting (spec sections 4.4, 4.5 and 4.6).  The fuel
bounds the stage chain PREFLOP..RIVER. -/
def GameState.advanceStage (s : GameState) (fuel : Nat) :
    Except EngineError GameState :=
  match fuel with
  | 0 => .ok s.resolveShowdown
  | fuel + 1 =>
    match s.stagePlan with
    | none => .ok s.resolveShowdown
    | some (n, st) =>
      match (s.collapseRound.startRound).dealToTable n with
      | .error e => .error e
      | .ok t =>
        match t.nextToAct t.dealerPos with
        | some j => .ok { t with stage := st, currentPlayer := j }
        | none => ({ t with stage := st } : GameState).advanceStage fuel

/-- Modelled from the spec: what follows an applied action — immediate
early termination when at most one seat contests, stage advance when the
betting round is complete, otherwise pass the turn to the next seat able
to act (spec section 4.6). -/
def GameState.afterAction (s : GameState) : Except EngineError GameState :=
  if s.contestingSeats.length ≤ 1 then
    .ok s.earlyAward
  else if s.roundComplete then
    s.advanceStage 4
  else
    match s.nextToAct s.currentPlayer with
    | some j => .ok { s with currentPlayer := j }
    | none => s.advanceStage 4

/-- Modelled from the spec: apply one already-validated action of the
current player — FOLD marks the seat folded; the chip actions commit their
amount through the pot ledger, mark an emptied stack all-in, and update
the player-cycle bookkeeping; then the round/stage logic runs
(spec section 4.6). -/
def GameState.applyAction (s : GameState) (a : Action) :
    Except EngineError GameState :=
  match a with
  | .FOLD =>
    let t := { s with players := (updatePlayer s.players s.currentPlayer
        (fun p => { p with hasFolded := true })) }
    (t.recordAction s.currentPlayer .FOLD).afterAction
  | _ => do
    let amt := s.chipsToCommit a
    let t ← s.commit s.currentPlayer amt
    let t := t.markAllIn s.currentPlayer
    let t := t.recordAction s.currentPlayer a
    t.afterAction

/-- Modelled from the spec: `step(action)` — fails with `NoActivePlayer`
once the hand is done; validates the action against `legal_moves`,
otherwise failing with `IllegalAction` under the reject policy or forcing
a FOLD under the auto-fold policy (`raise_illegal_moves`); then applies
the action (spec sections 4.6 and 7). -/
def GameState.step (s : GameState) (a : Action) :
    Except EngineError GameState :=
  if s.done then .error .NoActivePlayer
  else if a ∈ s.legalMoves then s.applyAction a
  else if s.raiseIllegalMoves then s.applyAction .FOLD
  else .error .IllegalAction

/-! ### Table construction and `reset` -/

/-- Modelled from the spec: `new_table` — an empty table holding the
construction-time configuration (starting stack, blinds, the per-round
raise cap, and the illegal-action policy); seats are added afterwards
(spec section 6). -/
def newTable (initialStacks smallBlind bigBlind : Int)
    (maxRaises : Nat) (raiseIllegal : Bool) : GameState :=
  { players := []
    playerPots := []
    communityPot := 0
    currentRoundPot := 0
    stage := .PREFLOP
    tableCards := []
    deck := []
    currentPlayer := 0
    dealerPos := 0
    raisesThisRound := []
    actedSinceRaise := []
    done := false
    winnerIx := none
    initialStacks := initialStacks
    smallBlind := smallBlind
    bigBlind := bigBlind
    maxRaisesPerPlayerRound := maxRaises
    raiseIllegalMoves := raiseIllegal }

/-- Modelled from the spec: `add_player` seats one more player with the
table's starting stack at the next seat index. -/
def GameState.addPlayer (s : GameState) (name : String) : GameState :=
  { s with
    players := s.players ++
      [{ seat := s.players.length, name := name,
         stack := s.initialStacks, cards := [],
         hasFolded := false, isAllIn := false }],
    playerPots := s.playerPots ++ [0],
    raisesThisRound := s.raisesThisRound ++ [0],
    actedSinceRaise := s.actedSinceRaise ++ [false] }

/-- Deal two hole cards off the deck to every seat in order; fails with
`DeckExhausted` when the deck runs short. -/
def dealHole (players : List PlayerSt) (deck : List Card) :
    Except EngineError (List PlayerSt × List Card) :=
  match players with
  | [] => .ok ([], deck)
  | p :: ps =>
    match deck with
    | c1 :: c2 :: rest => do
      let (ps2, deck2) ← dealHole ps rest
      .ok ({ p with cards := [c1, c2] } :: ps2, deck2)
    | _ => .error .DeckExhausted

/-- Modelled from the spec: the per-hand state cleared at the start of
`reset()` — fresh deck, stage PREFLOP, empty pots, dealer advanced one
seat, all seats un-folded with no cards (spec section 4.6). -/
def GameState.clearedForReset (s : GameState) (deck : List Card) :
    GameState :=
  { s with
    stage := Stage.PREFLOP,
    deck := deck,
    tableCards := [],
    communityPot := 0,
    currentRoundPot := 0,
    playerPots := List.replicate s.players.length 0,
    raisesThisRound := List.replicate s.players.length 0,
    actedSinceRaise := List.replicate s.players.length false,
    done := false,
    winnerIx := none,
    dealerPos := (s.dealerPos + 1) % s.players.length,
    players := s.players.map (fun (p : PlayerSt) =>
      { p with cards := [], hasFolded := false, isAllIn := false }) }

/-- Modelled from the spec: hand the turn to the first seat able to act
after the big blind (spec section 4.6). -/
def GameState.seatAfterBlinds (s : GameState) : GameState :=
  match s.nextToAct ((s.dealerPos + 2) % s.players.length) with
  | some j => { s with currentPlayer := j }
  | none => { s with currentPlayer := (s.dealerPos + 1) % s.players.length }

/-- Modelled from the spec: post the small and big blinds as forced
commits for the two seats after the dealer, mark a blinded-away stack
all-in, and seat the first player to act (spec section 4.6). -/
def GameState.postBlinds (s : GameState) : Except EngineError GameState :=
  match s.commit ((s.dealerPos + 1) % s.players.length) s.smallBlind with
  | .error e => .error e
  | .ok t1 =>
    match t1.commit ((t1.dealerPos + 2) % t1.players.length) t1.bigBlind with
    | .error e => .error e
    | .ok t2 =>
      .ok (((t2.markAllIn ((t2.dealerPos + 1) % t2.players.length)).markAllIn
        ((t2.dealerPos + 2) % t2.players.length)).seatAfterBlinds)

/-- Modelled from the spec: `reset()` — clears per-hand state, installs
the (externally shuffled) deck, advances the dealer one seat, deals two
hole cards per seat, posts the small and big blinds as forced commits, and
hands the turn to the first seat able to act after the big blind, at stage
PREFLOP (spec section 4.6).  The shuffle itself is randomness the caller
supplies as the `deck` argument. -/
def GameState.reset (s : GameState) (deck : List Card) :
    Except EngineError GameState :=
  if s.players.length = 0 then .error .NoActivePlayer
  else
    match dealHole (s.clearedForReset deck).players deck with
    | .error e => .error e
    | .ok (dealt, rest) =>
      ({ s.clearedForReset deck with
         players := dealt, deck := rest } : GameState).postBlinds

/-! ### The tool layer, translated from `src/poker_multiagent/tools.py`

The module-level globals `game_table` and `current_game_state` become an
explicit `ToolsModule` value threaded through the calls; Python dicts
become structures with the same keys. -/

/-- The `current_game_state` dict built by `initialize_poker_game`. -/
structure GameStateRecord where
  game_initialized : Bool
  num_players : Nat
  initial_stacks : Int
  small_blind : Int
  big_blind : Int
  current_hand : Nat
deriving DecidableEq, Repr

/-- The module-level mutable state of `tools.py` (its two globals). -/
structure ToolsModule where
  game_table : Option GameState
  current_game_state : Option GameStateRecord
deriving DecidableEq, Repr

/-- The fresh module: both globals unset. -/
def ToolsModule.empty : ToolsModule :=
  { game_table := none, current_game_state := none }

/-- Return dict of `initialize_poker_game`. -/
structure InitResult where
  status : String
  message : String
  game_state : Option GameStateRecord
deriving DecidableEq, Repr

/-- Translation of `initialize_poker_game` (tools.py lines 51-116): builds
a `HoldemTable` with the given stacks and blinds, at most 2 raises per
player per round and the reject (`raise_illegal_moves=False`) policy,
seats "Player1" and "Player2", resets it to start the first hand, and
overwrites the module global `game_table`.  The deck stands for the
engine's internal shuffle.  On failure the caught exception becomes an
error dict; the global already holds the new table by then. -/
def initialize_poker_game (m : ToolsModule) (deck : List Card)
    (initial_stacks small_blind big_blind : Int) :
    ToolsModule × InitResult :=
  match (((newTable initial_stacks small_blind big_blind 2 false).addPlayer
      "Player1").addPlayer "Player2").reset deck with
  | .ok t =>
    ({ game_table := some t,
       current_game_state := some
         { game_initialized := true, num_players := 2,
           initial_stacks := initial_stacks, small_blind := small_blind,
           big_blind := big_blind, current_hand := 1 } },
     { status := "success",
       message := "Poker game initialized with 2 players",
       game_state := some
         { game_initialized := true, num_players := 2,
           initial_stacks := initial_stacks, small_blind := small_blind,
           big_blind := big_blind, current_hand := 1 } })
  | .error _ =>
    ({ m with game_table := (some
        (((newTable initial_stacks small_blind big_blind 2
          false).addPlayer "Player1").addPlayer "Player2")) },
     { status := "error", message := "Failed to initialize game",
       game_state := none })

/-- One entry of the `players` list built by `get_game_state`. -/
structure PlayerView where
  seat : Nat
  name : String
  stack : Int
  cards : List String
  current_bet : Int
  is_active : Bool
deriving DecidableEq, Repr

/-- Return dict of `get_game_state`. -/
structure GameStateView where
  status : String
  message : String
  stage : String
  community_cards : List String
  community_pot : Int
  current_round_pot : Int
  current_player_seat : Option Nat
  current_player_name : Option String
  players : List PlayerView
  legal_actions : List String
  done : Bool
  winner : Option Nat
  min_call : Int
  dealer_position : Nat
deriving DecidableEq, Repr

/-- An error-status `GameStateView` with the given message and empty
payload fields. -/
def GameStateView.err (msg : String) : GameStateView :=
  { status := "error", message := msg, stage := "",
    community_cards := [], community_pot := 0, current_round_pot := 0,
    current_player_seat := none, current_player_name := none,
    players := [], legal_actions := [], done := false, winner := none,
    min_call := 0, dealer_position := 0 }

/-- Translation of `get_game_state` (tools.py lines 119-189): when no game
is initialized it reports the error, otherwise it serialises the whole
table — including every seated player's hole cards, whatever the stage and
whoever asks. -/
def get_game_state (table : Option GameState) : GameStateView :=
  match table with
  | none => GameStateView.err "Game not initialized"
  | some t =>
    { status := "success", message := "",
      stage := t.stage.nameStr,
      community_cards := t.tableCards.map Card.toStr,
      community_pot := t.communityPot,
      current_round_pot := t.currentRoundPot,
      current_player_seat :=
        if t.currentPlayer < t.players.length then some t.currentPlayer
        else none,
      current_player_name :=
        if t.currentPlayer < t.players.length then
          some (t.players.getD t.currentPlayer default).name
        else none,
      players := (List.range t.players.length).map (fun i =>
        let p := t.players.getD i default
        { seat := p.seat, name := p.name, stack := p.stack,
          cards := p.cards.map Card.toStr,
          current_bet := t.playerPots.getD i 0,
          is_active := t.contests i }),
      legal_actions := t.legalMoves.map Action.nameStr,
      done := t.done,
      winner := t.winnerIx,
      min_call := t.minCall,
      dealer_position := t.dealerPos }

/-- Return dict of `process_player_action`. -/
structure ActionResult where
  status : String
  message : String
  action_taken : String
  done : Bool
  game_state : Option GameStateView
deriving DecidableEq, Repr

/-- ASCII upper-casing of a string, modelling the source's
`action_name.upper()` (action names are ASCII). -/
def strUpper (s : String) : String :=
  String.mk (s.data.map Char.toUpper)

/-- The message `process_player_action` builds on an unknown action name,
listing the valid action names. -/
def invalidActionMessage (action_name : String) : String :=
  "Invalid action: " ++ action_name ++ ". Valid actions are: " ++
    String.intercalate ", " (Action.all.map Action.nameStr)

/-- Translation of `process_player_action` (tools.py lines 192-242): looks
the upper-cased name up in the `Action` enum — a miss is caught as
`KeyError` and reported without touching the table; a hit is stepped
through the engine, an engine failure again caught and reported; on
success the updated table and a fresh game-state view are returned. -/
def process_player_action (table : Option GameState)
    (action_name : String) : Option GameState × ActionResult :=
  match table with
  | none =>
    (none,
     { status := "error", message := "Game not initialized",
       action_taken := "", done := false, game_state := none })
  | some t =>
    match Action.ofName (strUpper action_name) with
    | none =>
      (some t,
       { status := "error", message := invalidActionMessage action_name,
         action_taken := "", done := false, game_state := none })
    | some a =>
      match t.step a with
      | .error _ =>
        (some t,
         { status := "error", message := "Error processing action",
           action_taken := "", done := false, game_state := none })
      | .ok t2 =>
        (some t2,
         { status := "success", message := "",
           action_taken := action_name, done := t2.done,
           game_state := some (get_game_state (some t2)) })

/-- One entry of the `final_stacks` list of `check_game_over`. -/
structure FinalStack where
  player : String
  seat : Nat
  final_stack : Int
deriving DecidableEq, Repr

/-- The `winner` dict of `check_game_over`. -/
structure WinnerInfo where
  name : String
  seat : Nat
  final_stack : Int
deriving DecidableEq, Repr

/-- Return dict of `check_game_over`. -/
structure GameOverResult where
  status : String
  message : String
  game_over : Bool
  winner : Option WinnerInfo
  final_stacks : List FinalStack
deriving DecidableEq, Repr

/-- Translation of `check_game_over` (tools.py lines 245-288): when the
hand is done it lists every player's final stack in seat order and, by
iterating and overwriting, ends up reporting the last player in seat order
whose stack is positive as the winner; otherwise winner stays `None` and
the list empty. -/
def check_game_over (table : Option GameState) : GameOverResult :=
  match table with
  | none =>
    { status := "error", message := "Game not initialized",
      game_over := false, winner := none, final_stacks := [] }
  | some t =>
    if t.done then
      { status := "success", message := "",
        game_over := true,
        winner := t.players.foldl (fun acc p =>
          if 0 < p.stack then
            some { name := p.name, seat := p.seat, final_stack := p.stack }
          else acc) none,
        final_stacks := t.players.map (fun p =>
          { player := p.name, seat := p.seat, final_stack := p.stack }) }
    else
      { status := "success", message := "",
        game_over := false, winner := none, final_stacks := [] }

/-- Return dict of `get_player_hand`. -/
structure HandView where
  status : String
  message : String
  player_name : String
  seat : Nat
  hand_cards : List String
  stack : Int
deriving DecidableEq, Repr

/-- Translation of `get_player_hand` (tools.py lines 292-325): bounds-checks
the seat and then returns that seat's hole cards and stack — to any caller,
with no observer identity involved at all. -/
def get_player_hand (table : Option GameState) (player_seat : Int) :
    HandView :=
  match table with
  | none =>
    { status := "error", message := "Game not initialized",
      player_name := "", seat := 0, hand_cards := [], stack := 0 }
  | some t =>
    if player_seat < 0 || (t.players.length : Int) ≤ player_seat then
      { status := "error",
        message := "Invalid player seat: " ++ toString player_seat,
        player_name := "", seat := 0, hand_cards := [], stack := 0 }
    else
      let p := t.players.getD player_seat.toNat default
      { status := "success", message := "",
        player_name := p.name, seat := player_seat.toNat,
        hand_cards := p.cards.map Card.toStr, stack := p.stack }

/-- Return dict of `get_legal_actions`. -/
structure LegalActionsView where
  status : String
  message : String
  legal_actions : List String
  current_player : Option String
  current_player_seat : Option Nat
  min_call : Int
  current_bet : Int
deriving DecidableEq, Repr

/-- Translation of `get_legal_actions` (tools.py lines 328-364): recomputes
and reports the current player's legal moves, minimum call and committed
chips. -/
def get_legal_actions (table : Option GameState) : LegalActionsView :=
  match table with
  | none =>
    { status := "error", message := "Game not initialized",
      legal_actions := [], current_player := none,
      current_player_seat := none, min_call := 0, current_bet := 0 }
  | some t =>
    { status := "success", message := "",
      legal_actions := t.legalMoves.map Action.nameStr,
      current_player :=
        if t.currentPlayer < t.players.length then
          some (t.players.getD t.currentPlayer default).name
        else none,
      current_player_seat :=
        if t.currentPlayer < t.players.length then some t.currentPlayer
        else none,
      min_call := t.minCall,
      current_bet := t.playerPots.getD t.currentPlayer 0 }

/-- Round a rational to two decimal places, as the source's
`round(x, 2)`. -/
def roundTo2 (x : ℚ) : ℚ :=
  ((round (x * 100) : ℤ) : ℚ) / 100

/-- Return dict of `calculate_pot_odds`; `pot_odds := none` stands for the
float infinity of the source. -/
structure PotOddsView where
  status : String
  message : String
  total_pot : Int
  call_amount : Int
  pot_odds : Option ℚ
  pot_odds_percentage : ℚ
  current_player : Option String
deriving DecidableEq, Repr

/-- Translation of `calculate_pot_odds` (tools.py lines 367-407): with a
positive minimum call it reports `total_pot / min_call` and the rounded
percentage `min_call / (total_pot + min_call) * 100`; otherwise infinity
and 0, never dividing by zero.  A zero percentage denominator (impossible
with non-negative pots) would surface as the caught-exception error
dict. -/
def calculate_pot_odds (table : Option GameState) : PotOddsView :=
  match table with
  | none =>
    { status := "error", message := "Game not initialized",
      total_pot := 0, call_amount := 0, pot_odds := none,
      pot_odds_percentage := 0, current_player := none }
  | some t =>
    let total_pot := t.communityPot + t.currentRoundPot
    let call_amount := t.minCall
    if 0 < call_amount then
      if total_pot + call_amount = 0 then
        { status := "error", message := "Error calculating pot odds",
          total_pot := 0, call_amount := 0, pot_odds := none,
          pot_odds_percentage := 0, current_player := none }
      else
        { status := "success", message := "",
          total_pot := total_pot, call_amount := call_amount,
          pot_odds := some ((total_pot : ℚ) / (call_amount : ℚ)),
          pot_odds_percentage :=
            roundTo2 ((call_amount : ℚ) / ((total_pot : ℚ) +
              (call_amount : ℚ)) * 100),
          current_player :=
            if t.currentPlayer < t.players.length then
              some (t.players.getD t.currentPlayer default).name
            else none }
    else
      { status := "success", message := "",
        total_pot := total_pot, call_amount := call_amount,
        pot_odds := none,
        pot_odds_percentage := 0,
        current_player :=
          if t.currentPlayer < t.players.length then
            some (t.players.getD t.currentPlayer default).name
          else none }

/-! ### Concrete instances used as test inputs -/

/-- The 52 distinct cards in a fixed order, standing for one concrete
shuffle. -/
def stdDeck : List Card :=
  (List.range 52).map (fun i => { rank := 2 + i % 13, suit := i / 13 })

/-- The module after one successful `initialize_poker_game` with the
default parameters (stacks 100, blinds 1/2). -/
def module1 : ToolsModule :=
  (initialize_poker_game ToolsModule.empty stdDeck 100 1 2).1

/-- The freshly initialized table held by `module1`. -/
def table1 : GameState :=
  (module1.game_table).getD (newTable 0 0 0 0 false)

/-- The table after the small blind calls, used as a concrete successful
step. -/
def table1Call : GameState :=
  match table1.step .CALL with
  | .ok t => t
  | .error _ => table1

/-- A finished copy of the concrete table, exercising the game-over
report. -/
def tableDone : GameState :=
  { table1 with done := true }

/-! ### Derived quantities the properties speak about -/

/-- Total chips in the player stacks. -/
def sumStacks (l : List PlayerSt) : Int :=
  (l.map PlayerSt.stack).sum

/-- The conserved quantity of spec section 8: all stacks plus the
community pot plus the current round pot. -/
def chipTotal (s : GameState) : Int :=
  sumStacks s.players + s.communityPot + s.currentRoundPot

/-- All chip amounts of a table state are non-negative: every stack, every
per-seat round commitment, the community pot and the round pot. -/
def InvNonneg (s : GameState) : Prop :=
  (∀ p ∈ s.players, 0 ≤ p.stack) ∧ (∀ x ∈ s.playerPots, 0 ≤ x) ∧
    0 ≤ s.communityPot ∧ 0 ≤ s.currentRoundPot

/-- The winner dict `check_game_over` builds from a player. -/
def winnerInfoOf (p : PlayerSt) : WinnerInfo :=
  { name := p.name, seat := p.seat, final_stack := p.stack }

/-- The final-stack entry `check_game_over` builds from a player. -/
def finalStackOf (p : PlayerSt) : FinalStack :=
  { player := p.name, seat := p.seat, final_stack := p.stack }

/-! ## Helper lemmas -/

theorem sumStacks_cons (x : PlayerSt) (xs : List PlayerSt) :
    sumStacks (x :: xs) = x.stack + sumStacks xs := by
  simp [sumStacks]

theorem sumStacks_set (l : List PlayerSt) (i : Nat) (p : PlayerSt)
    (h : i < l.length) :
    sumStacks (l.set i p) =
      sumStacks l - (l.getD i default).stack + p.stack := by
  induction l generalizing i with
  | nil => simp at h
  | cons x xs ih =>
    cases i with
    | zero => simp [sumStacks]; ring
    | succ n =>
      have h' : n < xs.length := by simpa using h
      rw [List.set_cons_succ, sumStacks_cons, ih n h', sumStacks_cons,
        List.getD_cons_succ]
      ring

theorem sumStacks_updatePlayer_sub (l : List PlayerSt) (i : Nat) (amt : Int)
    (h : i < l.length) :
    sumStacks (updatePlayer l i (fun p => { p with stack := p.stack - amt }))
      = sumStacks l - amt := by
  rw [updatePlayer, sumStacks_set l i _ h]
  ring

theorem sumStacks_updatePlayer_stackEq (l : List PlayerSt) (i : Nat)
    (f : PlayerSt → PlayerSt) (hf : ∀ p, (f p).stack = p.stack) :
    sumStacks (updatePlayer l i f) = sumStacks l := by
  by_cases h : i < l.length
  · rw [updatePlayer, sumStacks_set l i _ h, hf]
    ring
  · rw [updatePlayer, List.set_eq_of_length_le (by omega)]

theorem sumStacks_updatePlayer_add (l : List PlayerSt) (i : Nat) (amt : Int) :
    sumStacks (updatePlayer l i (fun p => { p with stack := p.stack + amt }))
      = sumStacks l + (if i < l.length then amt else 0) := by
  by_cases h : i < l.length
  · rw [updatePlayer, sumStacks_set l i _ h, if_pos h]
    ring
  · rw [updatePlayer, List.set_eq_of_length_le (by omega), if_neg h]
    ring

theorem length_updatePlayer (l : List PlayerSt) (i : Nat)
    (f : PlayerSt → PlayerSt) :
    (updatePlayer l i f).length = l.length := by
  simp [updatePlayer]

/-! ### Chip conservation through each engine operation -/

theorem chipTotal_commit (s t : GameState) (i : Nat) (amt : Int)
    (h : s.commit i amt = .ok t) : chipTotal t = chipTotal s := by
  unfold GameState.commit at h
  split at h
  case isTrue hg =>
    simp only [Bool.and_eq_true, decide_eq_true_eq] at hg
    cases h
    simp only [chipTotal]
    rw [sumStacks_updatePlayer_sub _ _ _ hg.1.1]
    ring
  case isFalse => cases h

theorem chipTotal_collapseRound (s : GameState) :
    chipTotal s.collapseRound = chipTotal s := by
  simp [chipTotal, GameState.collapseRound]
  ring

theorem chipTotal_recordAction (s : GameState) (i : Nat) (a : Action) :
    chipTotal (s.recordAction i a) = chipTotal s := by
  unfold GameState.recordAction
  split <;> simp [chipTotal]

theorem chipTotal_markAllIn (s : GameState) (i : Nat) :
    chipTotal (s.markAllIn i) = chipTotal s := by
  unfold GameState.markAllIn
  split
  · simp only [chipTotal]
    rw [sumStacks_updatePlayer_stackEq]
    intro p
    rfl
  · rfl

theorem chipTotal_startRound (s : GameState) :
    chipTotal s.startRound = chipTotal s := by
  simp [chipTotal, GameState.startRound]

theorem dealToTable_ok (s t : GameState) (n : Nat)
    (h : s.dealToTable n = .ok t) :
    t = { s with tableCards := s.tableCards ++ s.deck.take n,
                 deck := s.deck.drop n } := by
  unfold GameState.dealToTable at h
  split at h
  · cases h
    rfl
  · cases h

theorem chipTotal_addToStack (s : GameState) (i : Nat) (amt : Int) :
    chipTotal (s.addToStack i amt) =
      chipTotal s + (if i < s.players.length then amt else 0) := by
  simp only [chipTotal, GameState.addToStack]
  rw [sumStacks_updatePlayer_add]
  ring

theorem addToStack_fields (s : GameState) (i : Nat) (amt : Int) :
    (s.addToStack i amt).communityPot = s.communityPot ∧
    (s.addToStack i amt).currentRoundPot = s.currentRoundPot ∧
    (s.addToStack i amt).players.length = s.players.length := by
  refine ⟨rfl, rfl, ?_⟩
  simp [GameState.addToStack, length_updatePlayer]

theorem chipTotal_applyAwards (l : List (Nat × Int)) (s : GameState)
    (h : ∀ x ∈ l, x.1 < s.players.length) :
    chipTotal (s.applyAwards l) = chipTotal s + (l.map Prod.snd).sum := by
  induction l generalizing s with
  | nil => simp [GameState.applyAwards]
  | cons x xs ih =>
    have hx : x.1 < s.players.length := h x (by simp)
    have hlen := (addToStack_fields s x.1 x.2).2.2
    have hxs : ∀ y ∈ xs, y.1 < (s.addToStack x.1 x.2).players.length := by
      intro y hy
      rw [hlen]
      exact h y (by simp [hy])
    have hstep : (s.applyAwards (x :: xs)) =
        ((s.addToStack x.1 x.2).applyAwards xs) := rfl
    rw [hstep, ih _ hxs, chipTotal_addToStack, if_pos hx]
    simp
    ring

theorem applyAwards_pots (l : List (Nat × Int)) (s : GameState) :
    (s.applyAwards l).communityPot = s.communityPot ∧
    (s.applyAwards l).currentRoundPot = s.currentRoundPot ∧
    (s.applyAwards l).players.length = s.players.length := by
  induction l generalizing s with
  | nil => exact ⟨rfl, rfl, rfl⟩
  | cons x xs ih =>
    have h1 := addToStack_fields s x.1 x.2
    have h2 := ih (s.addToStack x.1 x.2)
    exact ⟨h2.1.trans h1.1, h2.2.1.trans h1.2.1, h2.2.2.trans h1.2.2⟩

theorem sum_map_constInt (l : List Nat) (c : Int) :
    (l.map (fun _ => c)).sum = (l.length : Int) * c := by
  induction l with
  | nil => simp
  | cons x xs ih =>
    simp [ih]
    ring

theorem sum_awardShares (w : Nat) (ws : List Nat) (pot : Int) :
    ((awardShares (w :: ws) pot).map Prod.snd).sum = pot := by
  simp only [awardShares, List.map_cons, List.map_map, List.sum_cons]
  have hconst :
      (ws.map ((fun x : Nat × Int => x.2) ∘ fun x => (x, pot / ((ws.length : Int) + 1)))).sum
        = (ws.length : Int) * (pot / ((ws.length : Int) + 1)) := by
    have hfun : ((fun x : Nat × Int => x.2) ∘ fun x : Nat =>
        (x, pot / ((ws.length : Int) + 1))) =
        (fun _ : Nat => pot / ((ws.length : Int) + 1)) := rfl
    rw [hfun, sum_map_constInt]
  rw [hconst]
  have hdm := Int.ediv_add_emod pot ((ws.length : Int) + 1)
  linarith [hdm]

theorem mem_awardShares_fst (winners : List Nat) (pot : Int) (x : Nat × Int)
    (hx : x ∈ awardShares winners pot) : x.1 ∈ winners := by
  match winners with
  | [] => simp [awardShares] at hx
  | w :: ws =>
    simp only [awardShares, List.mem_cons, List.mem_map] at hx
    rcases hx with h | ⟨y, hy, hyx⟩
    · subst h
      simp
    · cases hyx
      simp [hy]

theorem mem_contestingSeats_lt (s : GameState) (i : Nat)
    (h : i ∈ s.contestingSeats) : i < s.players.length := by
  simp only [GameState.contestingSeats, List.mem_filter, List.mem_range] at h
  exact h.1

theorem mem_showdownWinners_lt (s : GameState) (i : Nat)
    (h : i ∈ s.showdownWinners) : i < s.players.length := by
  simp only [GameState.showdownWinners, List.mem_filter] at h
  exact mem_contestingSeats_lt s i h.1

theorem chipTotal_resolveShowdown (s : GameState) :
    chipTotal s.resolveShowdown = chipTotal s := by
  have hcc := chipTotal_collapseRound s
  unfold GameState.resolveShowdown
  split
  · simp only [chipTotal] at *
    omega
  · rename_i w ws hw
    have hmem : ∀ x ∈ awardShares (w :: ws) s.collapseRound.communityPot,
        x.1 < s.collapseRound.players.length := by
      intro x hx
      have hfst := mem_awardShares_fst (w :: ws)
        s.collapseRound.communityPot x hx
      rw [← hw] at hfst
      exact mem_showdownWinners_lt s.collapseRound x.1 hfst
    have happ := chipTotal_applyAwards
      (awardShares (w :: ws) s.collapseRound.communityPot)
      s.collapseRound hmem
    have hps := applyAwards_pots
      (awardShares (w :: ws) s.collapseRound.communityPot) s.collapseRound
    rw [sum_awardShares] at happ
    simp only [chipTotal] at *
    omega

theorem chipTotal_earlyAward (s : GameState) :
    chipTotal s.earlyAward = chipTotal s := by
  have hcc := chipTotal_collapseRound s
  unfold GameState.earlyAward
  split
  · simp only [chipTotal] at *
    omega
  · rename_i w ws hw
    have hwlt : w < s.collapseRound.players.length :=
      mem_contestingSeats_lt s.collapseRound w (by rw [hw]; simp)
    have hadd := chipTotal_addToStack s.collapseRound w
      s.collapseRound.communityPot
    rw [if_pos hwlt] at hadd
    simp only [chipTotal, GameState.addToStack] at *
    omega

theorem chipTotal_advanceStage (fuel : Nat) (s t : GameState)
    (h : s.advanceStage fuel = .ok t) : chipTotal t = chipTotal s := by
  induction fuel generalizing s t with
  | zero =>
    unfold GameState.advanceStage at h
    cases h
    exact chipTotal_resolveShowdown s
  | succ n ih =>
    have hbase : chipTotal s.collapseRound.startRound = chipTotal s := by
      rw [chipTotal_startRound, chipTotal_collapseRound]
    unfold GameState.advanceStage at h
    split at h
    · cases h
      exact chipTotal_resolveShowdown s
    · split at h
      · cases h
      · rename_i k st u hd
        have hu := dealToTable_ok _ _ _ hd
        have hcu : chipTotal u = chipTotal s := by
          subst hu
          simpa [chipTotal] using hbase
        split at h
        · cases h
          simpa [chipTotal] using hcu
        · have hrec := ih _ _ h
          rw [hrec]
          simpa [chipTotal] using hcu

theorem chipTotal_afterAction (s t : GameState)
    (h : s.afterAction = .ok t) : chipTotal t = chipTotal s := by
  unfold GameState.afterAction at h
  split at h
  · cases h
    exact chipTotal_earlyAward s
  · split at h
    · exact chipTotal_advanceStage 4 s t h
    · split at h
      · cases h
        simp [chipTotal]
      · exact chipTotal_advanceStage 4 s t h

theorem chipTotal_applyAction (s t : GameState) (a : Action)
    (h : s.applyAction a = .ok t) : chipTotal t = chipTotal s := by
  have hfold : ∀ u : GameState,
      chipTotal ({ u with players := (updatePlayer u.players u.currentPlayer
        (fun p => { p with hasFolded := true })) } : GameState)
        = chipTotal u := by
    intro u
    simp only [chipTotal]
    rw [sumStacks_updatePlayer_stackEq]
    intro p
    rfl
  unfold GameState.applyAction at h
  cases a
  case FOLD =>
    simp only at h
    have h2 := chipTotal_afterAction _ _ h
    rw [h2, chipTotal_recordAction, hfold]
  all_goals {
    simp only [bind, Except.bind] at h
    revert h
    cases hc : s.commit s.currentPlayer (s.chipsToCommit _) with
    | error e => intro h; cases h
    | ok u =>
      intro h
      have h2 := chipTotal_afterAction _ _ h
      rw [h2, chipTotal_recordAction, chipTotal_markAllIn]
      exact chipTotal_commit s u _ _ hc
  }

/-! ### Non-negativity of all chip amounts through each engine operation -/

theorem getD_nonneg (l : List Int) (i : Nat) (h : ∀ x ∈ l, 0 ≤ x) :
    0 ≤ l.getD i 0 := by
  rw [List.getD_eq_getElem?_getD]
  cases hx : l[i]? with
  | none => simp
  | some x =>
    have : x ∈ l := List.getElem?_mem hx
    simpa using h x this

theorem getD_mem_of_lt (l : List PlayerSt) (i : Nat) (h : i < l.length) :
    l.getD i default ∈ l := by
  rw [List.getD_eq_getElem?_getD, List.getElem?_eq_getElem h]
  exact List.getElem_mem h

theorem stackOf_nonneg (s : GameState) (i : Nat)
    (h : ∀ p ∈ s.players, 0 ≤ p.stack) : 0 ≤ s.stackOf i := by
  unfold GameState.stackOf
  by_cases hi : i < s.players.length
  · exact h _ (getD_mem_of_lt s.players i hi)
  · rw [List.getD_eq_getElem?_getD, List.getElem?_eq_none (by omega)]
    simp [default]

theorem potOf_nonneg (s : GameState) (i : Nat)
    (h : ∀ x ∈ s.playerPots, 0 ≤ x) : 0 ≤ s.potOf i :=
  getD_nonneg s.playerPots i h

theorem stacks_nonneg_updatePlayer (l : List PlayerSt) (i : Nat)
    (f : PlayerSt → PlayerSt) (hf : 0 ≤ (f (l.getD i default)).stack)
    (h : ∀ p ∈ l, 0 ≤ p.stack) :
    ∀ p ∈ updatePlayer l i f, 0 ≤ p.stack := by
  intro p hp
  rcases List.mem_or_eq_of_mem_set hp with hm | he
  · exact h p hm
  · rw [he]
    exact hf

theorem minCall_nonneg (s : GameState) : 0 ≤ s.minCall := by
  unfold GameState.minCall GameState.minCallOf
  exact le_max_right _ _

theorem invNonneg_commit (s t : GameState) (i : Nat) (amt : Int)
    (hinv : InvNonneg s) (h : s.commit i amt = .ok t) : InvNonneg t := by
  obtain ⟨h1, h2, h3, h4⟩ := hinv
  unfold GameState.commit at h
  split at h
  case isFalse => cases h
  case isTrue hg =>
    simp only [Bool.and_eq_true, decide_eq_true_eq] at hg
    obtain ⟨⟨hi, ha0⟩, hale⟩ := hg
    cases h
    refine ⟨?_, ?_, ?_, ?_⟩ <;> dsimp only
    · refine stacks_nonneg_updatePlayer _ _ _ ?_ h1
      dsimp only
      unfold GameState.stackOf at hale
      omega
    · intro x hx
      rcases List.mem_or_eq_of_mem_set hx with hm | he
      · exact h2 x hm
      · rw [he]
        have := potOf_nonneg s i h2
        omega
    · exact h3
    · omega

theorem invNonneg_collapseRound (s : GameState) (hinv : InvNonneg s) :
    InvNonneg s.collapseRound := by
  obtain ⟨h1, h2, h3, h4⟩ := hinv
  refine ⟨h1, ?_, by simp [GameState.collapseRound]; omega, by simp [GameState.collapseRound]⟩
  intro x hx
  simp only [GameState.collapseRound] at hx
  have := List.eq_of_mem_replicate hx
  omega

theorem invNonneg_recordAction (s : GameState) (i : Nat) (a : Action)
    (hinv : InvNonneg s) : InvNonneg (s.recordAction i a) := by
  unfold GameState.recordAction
  split <;> exact hinv

theorem invNonneg_markAllIn (s : GameState) (i : Nat)
    (hinv : InvNonneg s) : InvNonneg (s.markAllIn i) := by
  obtain ⟨h1, h2, h3, h4⟩ := hinv
  unfold GameState.markAllIn
  split
  · refine ⟨?_, h2, h3, h4⟩
    dsimp only
    refine stacks_nonneg_updatePlayer _ _ _ ?_ h1
    dsimp only
    exact stackOf_nonneg s i h1
  · exact ⟨h1, h2, h3, h4⟩

theorem invNonneg_startRound (s : GameState) (hinv : InvNonneg s) :
    InvNonneg s.startRound := hinv

theorem invNonneg_addToStack (s : GameState) (i : Nat) (amt : Int)
    (hamt : 0 ≤ amt) (hinv : InvNonneg s) : InvNonneg (s.addToStack i amt) := by
  obtain ⟨h1, h2, h3, h4⟩ := hinv
  refine ⟨?_, h2, h3, h4⟩
  dsimp only [GameState.addToStack]
  refine stacks_nonneg_updatePlayer _ _ _ ?_ h1
  dsimp only
  have := stackOf_nonneg s i h1
  unfold GameState.stackOf at this
  omega

theorem invNonneg_applyAwards (l : List (Nat × Int)) (s : GameState)
    (hamt : ∀ x ∈ l, 0 ≤ x.2) (hinv : InvNonneg s) :
    InvNonneg (s.applyAwards l) := by
  induction l generalizing s with
  | nil => exact hinv
  | cons x xs ih =>
    have hstep : s.applyAwards (x :: xs) =
        (s.addToStack x.1 x.2).applyAwards xs := rfl
    rw [hstep]
    refine ih _ (fun y hy => hamt y (by simp [hy])) ?_
    exact invNonneg_addToStack s x.1 x.2 (hamt x (by simp)) hinv

theorem awardShares_snd_nonneg (winners : List Nat) (pot : Int)
    (hpot : 0 ≤ pot) : ∀ x ∈ awardShares winners pot, 0 ≤ x.2 := by
  intro x hx
  match winners with
  | [] => simp [awardShares] at hx
  | w :: ws =>
    have hk : (0 : Int) < (ws.length : Int) + 1 := by positivity
    have hdiv : 0 ≤ pot / ((ws.length : Int) + 1) :=
      Int.ediv_nonneg hpot (by omega)
    have hmod : 0 ≤ pot % ((ws.length : Int) + 1) :=
      Int.emod_nonneg pot (by omega)
    simp only [awardShares, List.mem_cons, List.mem_map] at hx
    rcases hx with h | ⟨y, _, hyx⟩
    · subst h
      simp only
      omega
    · cases hyx
      simpa using hdiv

theorem applyAwards_playerPots (l : List (Nat × Int)) (s : GameState) :
    (s.applyAwards l).playerPots = s.playerPots := by
  induction l generalizing s with
  | nil => rfl
  | cons x xs ih => exact ih (s.addToStack x.1 x.2)

theorem invNonneg_resolveShowdown (s : GameState) (hinv : InvNonneg s) :
    InvNonneg s.resolveShowdown := by
  have hc := invNonneg_collapseRound s hinv
  obtain ⟨h1, h2, h3, h4⟩ := hc
  unfold GameState.resolveShowdown
  split
  · exact ⟨h1, h2, h3, h4⟩
  · rename_i w ws hw
    have hpaid := invNonneg_applyAwards
      (awardShares (w :: ws) s.collapseRound.communityPot) s.collapseRound
      (awardShares_snd_nonneg _ _ h3) ⟨h1, h2, h3, h4⟩
    obtain ⟨g1, g2, g3, g4⟩ := hpaid
    refine ⟨g1, ?_, ?_, g4⟩
    · dsimp only
      rw [applyAwards_playerPots]
      exact h2
    · dsimp only
      omega

theorem invNonneg_earlyAward (s : GameState) (hinv : InvNonneg s) :
    InvNonneg s.earlyAward := by
  have hc := invNonneg_collapseRound s hinv
  obtain ⟨h1, h2, h3, h4⟩ := hc
  unfold GameState.earlyAward
  split
  · exact ⟨h1, h2, h3, h4⟩
  · rename_i w ws hw
    have hpaid := invNonneg_addToStack s.collapseRound w
      s.collapseRound.communityPot h3 ⟨h1, h2, h3, h4⟩
    obtain ⟨g1, g2, g3, g4⟩ := hpaid
    refine ⟨g1, g2, ?_, g4⟩
    dsimp only
    omega

theorem invNonneg_advanceStage (fuel : Nat) (s t : GameState)
    (hinv : InvNonneg s) (h : s.advanceStage fuel = .ok t) : InvNonneg t := by
  induction fuel generalizing s t with
  | zero =>
    unfold GameState.advanceStage at h
    cases h
    exact invNonneg_resolveShowdown s hinv
  | succ n ih =>
    unfold GameState.advanceStage at h
    split at h
    · cases h
      exact invNonneg_resolveShowdown s hinv
    · split at h
      · cases h
      · rename_i k st u hd
        have hu := dealToTable_ok _ _ _ hd
        have hbase : InvNonneg s.collapseRound.startRound :=
          invNonneg_startRound _ (invNonneg_collapseRound s hinv)
        have hiu : InvNonneg u := by
          subst hu
          exact hbase
        obtain ⟨g1, g2, g3, g4⟩ := hiu
        split at h
        · cases h
          exact ⟨g1, g2, g3, g4⟩
        · refine ih _ _ ?_ h
          exact ⟨g1, g2, g3, g4⟩

theorem invNonneg_afterAction (s t : GameState)
    (hinv : InvNonneg s) (h : s.afterAction = .ok t) : InvNonneg t := by
  unfold GameState.afterAction at h
  split at h
  · cases h
    exact invNonneg_earlyAward s hinv
  · split at h
    · exact invNonneg_advanceStage 4 s t hinv h
    · split at h
      · cases h
        exact hinv
      · exact invNonneg_advanceStage 4 s t hinv h

theorem invNonneg_applyAction (s t : GameState) (a : Action)
    (hinv : InvNonneg s) (h : s.applyAction a = .ok t) : InvNonneg t := by
  unfold GameState.applyAction at h
  cases a
  case FOLD =>
    simp only at h
    refine invNonneg_afterAction _ _ ?_ h
    refine invNonneg_recordAction _ _ _ ?_
    obtain ⟨h1, h2, h3, h4⟩ := hinv
    refine ⟨?_, h2, h3, h4⟩
    dsimp only
    refine stacks_nonneg_updatePlayer _ _ _ ?_ h1
    dsimp only
    exact stackOf_nonneg s s.currentPlayer h1
  all_goals {
    simp only [bind, Except.bind] at h
    revert h
    cases hc : s.commit s.currentPlayer (s.chipsToCommit _) with
    | error e => intro h; cases h
    | ok u =>
      intro h
      refine invNonneg_afterAction _ _ ?_ h
      refine invNonneg_recordAction _ _ _ ?_
      refine invNonneg_markAllIn _ _ ?_
      exact invNonneg_commit s u _ _ hinv hc
  }

theorem invNonneg_step (s t : GameState) (a : Action)
    (hinv : InvNonneg s) (h : s.step a = .ok t) : InvNonneg t := by
  unfold GameState.step at h
  split at h
  · cases h
  · split at h
    · exact invNonneg_applyAction _ _ _ hinv h
    · split at h
      · exact invNonneg_applyAction _ _ _ hinv h
      · cases h

/-! ### Tracing `reset` for the initialization contract -/

theorem getD_set_general {α : Type} (l : List α) (i j : Nat) (a d : α) :
    (l.set i a).getD j d =
      if j = i ∧ i < l.length then a else l.getD j d := by
  by_cases hj : j = i
  · subst hj
    by_cases hi : j < l.length
    · simp [List.getD_eq_getElem?_getD, List.getElem?_set_self hi, hi]
    · rw [List.set_eq_of_length_le (by omega)]
      simp [hi]
  · rw [List.getD_eq_getElem?_getD,
      List.getElem?_set_ne (fun hh => hj hh.symm),
      ← List.getD_eq_getElem?_getD]
    simp [hj]

theorem map_updatePlayer_eq {α : Type} (l : List PlayerSt) (i : Nat)
    (f : PlayerSt → PlayerSt) (g : PlayerSt → α)
    (hfg : ∀ p, g (f p) = g p) :
    (updatePlayer l i f).map g = l.map g := by
  induction l generalizing i with
  | nil => rfl
  | cons x xs ih =>
    cases i with
    | zero => simp [updatePlayer, hfg]
    | succ n =>
      have hstep : updatePlayer (x :: xs) (n + 1) f =
          x :: updatePlayer xs n f := by
        simp [updatePlayer]
      rw [hstep, List.map_cons, List.map_cons, ih n]

theorem stack_getD_map (l : List PlayerSt) (j : Nat) :
    (l.getD j default).stack = (l.map PlayerSt.stack).getD j 0 := by
  rw [List.getD_eq_getElem?_getD, List.getD_eq_getElem?_getD,
    List.getElem?_map]
  cases l[j]? <;> rfl

theorem getD_replicate_zero (n j : Nat) :
    (List.replicate n (0 : Int)).getD j 0 = 0 := by
  rw [List.getD_eq_getElem?_getD]
  cases hx : (List.replicate n (0 : Int))[j]? with
  | none => rfl
  | some x =>
    have := List.eq_of_mem_replicate (List.getElem?_mem hx)
    simp [this]

theorem commit_ok_eq (s u : GameState) (i : Nat) (amt : Int)
    (h : s.commit i amt = .ok u) :
    u = { s with
      players := (updatePlayer s.players i
        (fun p => { p with stack := p.stack - amt })),
      playerPots := s.playerPots.set i (s.potOf i + amt),
      currentRoundPot := s.currentRoundPot + amt } ∧
    i < s.players.length ∧ 0 ≤ amt ∧ amt ≤ s.stackOf i := by
  unfold GameState.commit at h
  split at h
  case isTrue hg =>
    simp only [Bool.and_eq_true, decide_eq_true_eq] at hg
    cases h
    exact ⟨rfl, hg.1.1, hg.1.2, hg.2⟩
  case isFalse => cases h

theorem commit_frame (s u : GameState) (i : Nat) (amt : Int)
    (hlen : s.playerPots.length = s.players.length)
    (h : s.commit i amt = .ok u) :
    u.stage = s.stage ∧ u.done = s.done ∧
    u.players.map PlayerSt.name = s.players.map PlayerSt.name ∧
    u.players.map PlayerSt.cards = s.players.map PlayerSt.cards ∧
    u.players.length = s.players.length ∧
    u.playerPots.length = s.playerPots.length ∧
    u.initialStacks = s.initialStacks ∧ u.smallBlind = s.smallBlind ∧
    u.bigBlind = s.bigBlind ∧
    u.maxRaisesPerPlayerRound = s.maxRaisesPerPlayerRound ∧
    u.raiseIllegalMoves = s.raiseIllegalMoves ∧
    u.dealerPos = s.dealerPos ∧
    (∀ j, u.stackOf j + u.potOf j = s.stackOf j + s.potOf j) := by
  obtain ⟨hu, hi, h0, hle⟩ := commit_ok_eq s u i amt h
  subst hu
  refine ⟨rfl, rfl, ?_, ?_, ?_, ?_, rfl, rfl, rfl, rfl, rfl, rfl, ?_⟩
  · dsimp only
    exact map_updatePlayer_eq _ _ _ _ (fun p => rfl)
  · dsimp only
    exact map_updatePlayer_eq _ _ _ _ (fun p => rfl)
  · dsimp only
    exact length_updatePlayer _ _ _
  · dsimp only
    exact List.length_set _ _ _
  · intro j
    unfold GameState.stackOf GameState.potOf updatePlayer at *
    dsimp only
    rw [getD_set_general, getD_set_general]
    by_cases hj : j = i
    · subst hj
      rw [if_pos ⟨rfl, hi⟩, if_pos ⟨rfl, by omega⟩]
      dsimp only
      omega
    · rw [if_neg (by tauto), if_neg (by tauto)]

theorem markAllIn_frame (s : GameState) (i : Nat) :
    (s.markAllIn i).stage = s.stage ∧ (s.markAllIn i).done = s.done ∧
    (s.markAllIn i).players.map PlayerSt.name =
      s.players.map PlayerSt.name ∧
    (s.markAllIn i).players.map PlayerSt.cards =
      s.players.map PlayerSt.cards ∧
    (s.markAllIn i).players.length = s.players.length ∧
    (s.markAllIn i).playerPots.length = s.playerPots.length ∧
    (s.markAllIn i).initialStacks = s.initialStacks ∧
    (s.markAllIn i).smallBlind = s.smallBlind ∧
    (s.markAllIn i).bigBlind = s.bigBlind ∧
    (s.markAllIn i).maxRaisesPerPlayerRound = s.maxRaisesPerPlayerRound ∧
    (s.markAllIn i).raiseIllegalMoves = s.raiseIllegalMoves ∧
    (s.markAllIn i).dealerPos = s.dealerPos ∧
    (∀ j, (s.markAllIn i).stackOf j + (s.markAllIn i).potOf j =
      s.stackOf j + s.potOf j) := by
  unfold GameState.markAllIn
  split
  · refine ⟨rfl, rfl, ?_, ?_, ?_, rfl, rfl, rfl, rfl, rfl, rfl, rfl, ?_⟩
    · dsimp only
      exact map_updatePlayer_eq _ _ _ _ (fun p => rfl)
    · dsimp only
      exact map_updatePlayer_eq _ _ _ _ (fun p => rfl)
    · dsimp only
      exact length_updatePlayer _ _ _
    · intro j
      unfold GameState.stackOf GameState.potOf updatePlayer
      dsimp only
      rw [getD_set_general]
      by_cases hj : j = i ∧ i < s.players.length
      · rw [if_pos hj]
        obtain ⟨hj1, _⟩ := hj
        subst hj1
        rfl
      · rw [if_neg hj]
  · exact ⟨rfl, rfl, rfl, rfl, rfl, rfl, rfl, rfl, rfl, rfl, rfl, rfl,
      fun j => rfl⟩

theorem seatAfterBlinds_frame (s : GameState) :
    s.seatAfterBlinds.stage = s.stage ∧ s.seatAfterBlinds.done = s.done ∧
    s.seatAfterBlinds.players = s.players ∧
    s.seatAfterBlinds.playerPots = s.playerPots ∧
    s.seatAfterBlinds.initialStacks = s.initialStacks ∧
    s.seatAfterBlinds.smallBlind = s.smallBlind ∧
    s.seatAfterBlinds.bigBlind = s.bigBlind ∧
    s.seatAfterBlinds.maxRaisesPerPlayerRound = s.maxRaisesPerPlayerRound ∧
    s.seatAfterBlinds.raiseIllegalMoves = s.raiseIllegalMoves := by
  unfold GameState.seatAfterBlinds
  split <;> exact ⟨rfl, rfl, rfl, rfl, rfl, rfl, rfl, rfl, rfl⟩

theorem postBlinds_frame (s t : GameState)
    (hlen : s.playerPots.length = s.players.length)
    (h : s.postBlinds = .ok t) :
    t.stage = s.stage ∧ t.done = s.done ∧
    t.players.map PlayerSt.name = s.players.map PlayerSt.name ∧
    t.players.map PlayerSt.cards = s.players.map PlayerSt.cards ∧
    t.players.length = s.players.length ∧
    t.initialStacks = s.initialStacks ∧ t.smallBlind = s.smallBlind ∧
    t.bigBlind = s.bigBlind ∧
    t.maxRaisesPerPlayerRound = s.maxRaisesPerPlayerRound ∧
    t.raiseIllegalMoves = s.raiseIllegalMoves ∧
    (∀ j, t.stackOf j + t.potOf j = s.stackOf j + s.potOf j) := by
  unfold GameState.postBlinds at h
  split at h
  · cases h
  · rename_i t1 hc1
    split at h
    · cases h
    · rename_i t2 hc2
      cases h
      obtain ⟨f1s, f1d, f1n, f1c, f1l, f1pl, f1i, f1sb, f1bb, f1m, f1r,
        f1dp, f1sp⟩ := commit_frame s t1 _ _ hlen hc1
      obtain ⟨f2s, f2d, f2n, f2c, f2l, f2pl, f2i, f2sb, f2bb, f2m, f2r,
        f2dp, f2sp⟩ := commit_frame t1 t2 _ _ (by omega) hc2
      obtain ⟨g1s, g1d, g1n, g1c, g1l, g1pl, g1i, g1sb, g1bb, g1m, g1r,
        g1dp, g1sp⟩ := markAllIn_frame t2
        ((t2.dealerPos + 1) % t2.players.length)
      obtain ⟨g2s, g2d, g2n, g2c, g2l, g2pl, g2i, g2sb, g2bb, g2m, g2r,
        g2dp, g2sp⟩ := markAllIn_frame
        (t2.markAllIn ((t2.dealerPos + 1) % t2.players.length))
        ((t2.dealerPos + 2) % t2.players.length)
      obtain ⟨hs, hd, hp, hpp, hii, hsb, hbb, hm, hr⟩ :=
        seatAfterBlinds_frame
        ((t2.markAllIn ((t2.dealerPos + 1) % t2.players.length)).markAllIn
          ((t2.dealerPos + 2) % t2.players.length))
      refine ⟨?_, ?_, ?_, ?_, ?_, ?_, ?_, ?_, ?_, ?_, ?_⟩
      · rw [hs, g2s, g1s, f2s, f1s]
      · rw [hd, g2d, g1d, f2d, f1d]
      · rw [hp, g2n, g1n, f2n, f1n]
      · rw [hp, g2c, g1c, f2c, f1c]
      · rw [hp, g2l, g1l, f2l, f1l]
      · rw [hii, g2i, g1i, f2i, f1i]
      · rw [hsb, g2sb, g1sb, f2sb, f1sb]
      · rw [hbb, g2bb, g1bb, f2bb, f1bb]
      · rw [hm, g2m, g1m, f2m, f1m]
      · rw [hr, g2r, g1r, f2r, f1r]
      · intro j
        have hseat : ∀ k,
            (((t2.markAllIn ((t2.dealerPos + 1) % t2.players.length)).markAllIn
              ((t2.dealerPos + 2) % t2.players.length)).seatAfterBlinds).stackOf k
                = ((t2.markAllIn ((t2.dealerPos + 1) % t2.players.length)).markAllIn
              ((t2.dealerPos + 2) % t2.players.length)).stackOf k := by
          intro k
          unfold GameState.stackOf
          rw [hp]
        have hseat2 : ∀ k,
            (((t2.markAllIn ((t2.dealerPos + 1) % t2.players.length)).markAllIn
              ((t2.dealerPos + 2) % t2.players.length)).seatAfterBlinds).potOf k
                = ((t2.markAllIn ((t2.dealerPos + 1) % t2.players.length)).markAllIn
              ((t2.dealerPos + 2) % t2.players.length)).potOf k := by
          intro k
          unfold GameState.potOf
          rw [hpp]
        rw [hseat j, hseat2 j]
        have := g2sp j
        have := g1sp j
        have := f2sp j
        have := f1sp j
        omega

theorem dealHole_ok (ps : List PlayerSt) (deck : List Card)
    (qs : List PlayerSt) (rest : List Card)
    (h : dealHole ps deck = .ok (qs, rest)) :
    qs.map PlayerSt.name = ps.map PlayerSt.name ∧
    qs.map PlayerSt.stack = ps.map PlayerSt.stack ∧
    qs.length = ps.length ∧
    (∀ q ∈ qs, q.cards.length = 2) := by
  induction ps generalizing deck qs rest with
  | nil =>
    unfold dealHole at h
    cases h
    simp
  | cons p ps ih =>
    unfold dealHole at h
    match deck with
    | [] => cases h
    | [c] => cases h
    | c1 :: c2 :: dr =>
      simp only [bind, Except.bind] at h
      revert h
      cases hdh : dealHole ps dr with
      | error e => intro h; cases h
      | ok pr =>
        obtain ⟨qs2, rest2⟩ := pr
        intro h
        cases h
        obtain ⟨hn, hst, hl, hc⟩ := ih dr qs2 rest2 hdh
        refine ⟨?_, ?_, ?_, ?_⟩
        · rw [List.map_cons, List.map_cons, hn]
        · rw [List.map_cons, List.map_cons, hst]
        · simp [hl]
        · intro q hq
          rcases List.mem_cons.mp hq with hq | hq
          · rw [hq]
            rfl
          · exact hc q hq

theorem reset_ok_props (s : GameState) (deck : List Card) (t : GameState)
    (h : s.reset deck = .ok t) :
    t.stage = Stage.PREFLOP ∧ t.done = false ∧
    t.players.map PlayerSt.name = s.players.map PlayerSt.name ∧
    t.players.length = s.players.length ∧
    t.initialStacks = s.initialStacks ∧ t.smallBlind = s.smallBlind ∧
    t.bigBlind = s.bigBlind ∧
    t.maxRaisesPerPlayerRound = s.maxRaisesPerPlayerRound ∧
    t.raiseIllegalMoves = s.raiseIllegalMoves ∧
    (∀ q ∈ t.players, q.cards.length = 2) ∧
    (∀ j, t.stackOf j + t.potOf j = s.stackOf j) := by
  unfold GameState.reset at h
  split at h
  · cases h
  · revert h
    cases hdh : dealHole (s.clearedForReset deck).players deck with
    | error e => intro h; cases h
    | ok pr =>
      obtain ⟨dealt, rest⟩ := pr
      intro h
      obtain ⟨hn, hst, hl, hc⟩ := dealHole_ok _ _ _ _ hdh
      have hcn : (s.clearedForReset deck).players.map PlayerSt.name =
          s.players.map PlayerSt.name := by
        simp only [GameState.clearedForReset, List.map_map]
        rfl
      have hcs : (s.clearedForReset deck).players.map PlayerSt.stack =
          s.players.map PlayerSt.stack := by
        simp only [GameState.clearedForReset, List.map_map]
        rfl
      have hcl : (s.clearedForReset deck).players.length =
          s.players.length := by
        simp [GameState.clearedForReset]
      have hmidlen :
          (({ s.clearedForReset deck with
              players := dealt, deck := rest } : GameState)).playerPots.length
            = dealt.length := by
        simp only [GameState.clearedForReset]
        simp [hl, hcl]
      obtain ⟨fs, fd, fn, fc, fl, fi, fsb, fbb, fm, fr, fsp⟩ :=
        postBlinds_frame _ t hmidlen h
      refine ⟨fs.trans rfl, fd.trans rfl, ?_, ?_, fi.trans rfl,
        fsb.trans rfl, fbb.trans rfl, fm.trans rfl, fr.trans rfl, ?_, ?_⟩
      · rw [fn]
        show dealt.map PlayerSt.name = _
        rw [hn, hcn]
      · rw [fl]
        show dealt.length = _
        rw [hl, hcl]
      · intro q hq
        have hqc : q.cards ∈ t.players.map PlayerSt.cards :=
          List.mem_map_of_mem PlayerSt.cards hq
        rw [fc] at hqc
        obtain ⟨q2, hq2, hq2c⟩ := List.mem_map.mp hqc
        rw [← hq2c]
        exact hc q2 hq2
      · intro j
        have hmid := fsp j
        have hmids : (({ s.clearedForReset deck with
            players := dealt, deck := rest } : GameState)).stackOf j
              = s.stackOf j := by
          unfold GameState.stackOf
          rw [stack_getD_map, stack_getD_map]
          show (dealt.map PlayerSt.stack).getD j 0 = _
          rw [hst, hcs]
        have hmidp : (({ s.clearedForReset deck with
            players := dealt, deck := rest } : GameState)).potOf j = 0 := by
          unfold GameState.potOf
          show (List.replicate s.players.length (0 : Int)).getD j 0 = 0
          exact getD_replicate_zero _ _
        rw [hmids, hmidp] at hmid
        omega

/-! ## Claim theorems -/

/-- C2: for every hand and every sequence of legal actions within it, the
sum of all player stacks plus the community pot plus the current round pot
is unchanged across every successful `step` call — chips are neither
created nor destroyed within a hand (spec-modelled engine). -/
theorem c2_chip_conservation (s t : GameState) (a : Action)
    (h : s.step a = .ok t) : chipTotal t = chipTotal s := by
  unfold GameState.step at h
  split at h
  · cases h
  · split at h
    · exact chipTotal_applyAction _ _ _ h
    · split at h
      · exact chipTotal_applyAction _ _ _ h
      · cases h

/-- Witness for C2: the small blind calling on the concrete freshly
initialized table conserves the chip total. -/
theorem c2_chip_conservation_witness :
    chipTotal table1Call = chipTotal table1 :=
  c2_chip_conservation table1 table1Call .CALL (by rfl)

/-- C3: under the reject policy (`raise_illegal_moves = false`, the one
the tool layer selects at construction), `step a` succeeds only when `a`
is among the current player's legal moves at call time, and an illegal
action during an unfinished hand is rejected with `IllegalAction` — step
returns no new state, so nothing changes — rather than auto-folding
(spec-modelled engine). -/
theorem c3_step_legality (s t : GameState) (a : Action)
    (hpol : s.raiseIllegalMoves = false) :
    (s.step a = .ok t → a ∈ s.legalMoves) ∧
    (s.done = false → a ∉ s.legalMoves →
      s.step a = .error .IllegalAction) := by
  constructor
  · intro h
    unfold GameState.step at h
    split at h
    · cases h
    · split at h
      · assumption
      · split at h
        · rename_i hpol2
          rw [hpol] at hpol2
          cases hpol2
        · cases h
  · intro hdone hmem
    simp [GameState.step, hdone, hmem, hpol]

/-- Witness for C3: on the concrete freshly initialized table CHECK is
illegal (a blind must be called) and is rejected with IllegalAction. -/
theorem c3_step_legality_witness :
    (table1.step .CHECK = .ok table1 → Action.CHECK ∈ table1.legalMoves) ∧
    (table1.done = false → Action.CHECK ∉ table1.legalMoves →
      table1.step .CHECK = .error .IllegalAction) :=
  c3_step_legality table1 table1 .CHECK (by decide)

theorem view_amounts_nonneg (t : GameState) (hinv : InvNonneg t) :
    0 ≤ (get_game_state (some t)).community_pot ∧
    0 ≤ (get_game_state (some t)).current_round_pot ∧
    0 ≤ (get_game_state (some t)).min_call ∧
    ∀ pv ∈ (get_game_state (some t)).players,
      0 ≤ pv.stack ∧ 0 ≤ pv.current_bet := by
  obtain ⟨h1, h2, h3, h4⟩ := hinv
  refine ⟨h3, h4, minCall_nonneg t, ?_⟩
  intro pv hpv
  simp only [get_game_state, List.mem_map, List.mem_range] at hpv
  obtain ⟨i, hi, hpv⟩ := hpv
  subst hpv
  constructor
  · exact h1 _ (getD_mem_of_lt t.players i hi)
  · exact getD_nonneg t.playerPots i h2

/-- C7: every chip amount the external interface exposes — the community
pot, the current round pot, the minimum call, and each player's stack and
committed chips this round — stays a non-negative integer across every
successful `step`: starting from a table with non-negative amounts, the
stepped table again has only non-negative amounts, and the serialised
game-state view shows only non-negative integers.  All pot arithmetic in
the engine model is exact integer arithmetic (spec-modelled engine). -/
theorem c7_amounts_nonneg (s t : GameState) (a : Action)
    (hinv : InvNonneg s) (h : s.step a = .ok t) :
    InvNonneg t ∧
    0 ≤ (get_game_state (some t)).community_pot ∧
    0 ≤ (get_game_state (some t)).current_round_pot ∧
    0 ≤ (get_game_state (some t)).min_call ∧
    ∀ pv ∈ (get_game_state (some t)).players,
      0 ≤ pv.stack ∧ 0 ≤ pv.current_bet := by
  have hit := invNonneg_step s t a hinv h
  exact ⟨hit, view_amounts_nonneg t hit⟩

/-- C6: whenever initialize_poker_game returns status success, the module
global holds exactly one new table seating two players named Player1 and
Player2, configured with the given starting stacks and blinds, at most 2
raises per player per round and the reject (raise_illegal_moves = false)
illegal-action policy, on which reset() has started the first hand (stage
PREFLOP, hand not done, two hole cards per seat, each seat's stack plus
its posted blind equal to the starting stack), and the returned game_state
records num_players = 2 and current_hand = 1. -/
theorem c6_initialize_success (m : ToolsModule) (deck : List Card)
    (init sb bb : Int)
    (h : (initialize_poker_game m deck init sb bb).2.status = "success") :
    ∃ t, (initialize_poker_game m deck init sb bb).1.game_table = some t ∧
      t.players.map PlayerSt.name = ["Player1", "Player2"] ∧
      t.players.length = 2 ∧
      t.initialStacks = init ∧ t.smallBlind = sb ∧ t.bigBlind = bb ∧
      t.maxRaisesPerPlayerRound = 2 ∧ t.raiseIllegalMoves = false ∧
      t.stage = Stage.PREFLOP ∧ t.done = false ∧
      (∀ p ∈ t.players, p.cards.length = 2) ∧
      (∀ i < 2, t.stackOf i + t.potOf i = init) ∧
      (initialize_poker_game m deck init sb bb).2.game_state =
        some { game_initialized := true, num_players := 2,
               initial_stacks := init, small_blind := sb, big_blind := bb,
               current_hand := 1 } := by
  unfold initialize_poker_game at h ⊢
  revert h
  cases hr : (((newTable init sb bb 2 false).addPlayer "Player1").addPlayer
      "Player2").reset deck with
  | error e =>
    intro h
    exact absurd (show ("error" : String) = "success" from h) (by decide)
  | ok t =>
    intro _
    obtain ⟨ps, pd, pn, pl, pi, psb, pbb, pm, pr, pc, psp⟩ :=
      reset_ok_props _ deck t hr
    refine ⟨t, rfl, ?_, ?_, ?_, ?_, ?_, ?_, ?_, ps, pd, pc, ?_, rfl⟩
    · exact pn.trans rfl
    · exact pl.trans rfl
    · exact pi.trans rfl
    · exact psb.trans rfl
    · exact pbb.trans rfl
    · exact pm.trans rfl
    · exact pr.trans rfl
    · intro i hi
      have hpi := psp i
      interval_cases i
      · exact hpi.trans rfl
      · exact hpi.trans rfl

/-- Witness for C6: the concrete default initialization (stacks 100,
blinds 1 and 2, the fixed deck) succeeds and satisfies the contract. -/
theorem c6_initialize_success_witness :
    ∃ t, (initialize_poker_game ToolsModule.empty stdDeck 100 1 2).1.game_table
        = some t ∧
      t.players.map PlayerSt.name = ["Player1", "Player2"] ∧
      t.players.length = 2 ∧
      t.initialStacks = 100 ∧ t.smallBlind = 1 ∧ t.bigBlind = 2 ∧
      t.maxRaisesPerPlayerRound = 2 ∧ t.raiseIllegalMoves = false ∧
      t.stage = Stage.PREFLOP ∧ t.done = false ∧
      (∀ p ∈ t.players, p.cards.length = 2) ∧
      (∀ i < 2, t.stackOf i + t.potOf i = 100) ∧
      (initialize_poker_game ToolsModule.empty stdDeck 100 1 2).2.game_state =
        some { game_initialized := true, num_players := 2,
               initial_stacks := 100, small_blind := 1, big_blind := 2,
               current_hand := 1 } :=
  c6_initialize_success ToolsModule.empty stdDeck 100 1 2 (by rfl)

/-- Witness for C7: the concrete call step from the freshly initialized
table keeps all exposed amounts non-negative. -/
theorem c7_amounts_nonneg_witness :
    InvNonneg table1Call ∧
    0 ≤ (get_game_state (some table1Call)).community_pot ∧
    0 ≤ (get_game_state (some table1Call)).current_round_pot ∧
    0 ≤ (get_game_state (some table1Call)).min_call ∧
    ∀ pv ∈ (get_game_state (some table1Call)).players,
      0 ≤ pv.stack ∧ 0 ≤ pv.current_bet :=
  c7_amounts_nonneg table1 table1Call .CALL
    ⟨by decide, by decide, by decide, by decide⟩ (by rfl)

/-- C1 (refuted by evaluation): before showdown the tool layer already
exposes every seat's hole cards.  On the concrete freshly initialized
table, still at PREFLOP, the game-state view handed to any caller lists
both seats' hole cards verbatim, and get_player_hand returns seat 1's
cards to whoever asks — it has no observer identity at all. -/
theorem c1_hole_cards_exposed :
    table1.stage = Stage.PREFLOP ∧
    (get_game_state (some table1)).stage = "PREFLOP" ∧
    (get_game_state (some table1)).players.map PlayerView.cards
      = [["2C", "3C"], ["4C", "5C"]] ∧
    table1.players.map (fun p => p.cards.map Card.toStr)
      = [["2C", "3C"], ["4C", "5C"]] ∧
    (get_player_hand (some table1) 1).status = "success" ∧
    (get_player_hand (some table1) 1).hand_cards = ["4C", "5C"] := by
  exact ⟨rfl, rfl, by decide, by decide, rfl, by decide⟩

/-- C4 (refuted by evaluation): the tool layer keeps the table in a
module-level global, and a second initialization overwrites it — the
module that held the first table afterwards holds a different one. -/
theorem c4_global_table_replaced :
    module1.game_table = some table1 ∧
    (initialize_poker_game module1 stdDeck 200 5 10).1.game_table ≠
      some table1 := by
  exact ⟨rfl, by decide⟩

/-- C5: an action name that (after upper-casing) names no Action member
makes process_player_action return the error dict listing the valid
action names, with the table handed back unchanged — step is never
reached and nothing is raised across the boundary. -/
theorem c5_invalid_action_rejected (t : GameState) (name : String)
    (h : Action.ofName (strUpper name) = none) :
    process_player_action (some t) name =
      (some t,
       { status := "error", message := invalidActionMessage name,
         action_taken := "", done := false, game_state := none }) := by
  unfold process_player_action
  rw [h]

/-- Witness for C5: the unknown action name banana is rejected and the
concrete table is returned unchanged. -/
theorem c5_invalid_action_rejected_witness :
    process_player_action (some table1) "banana" =
      (some table1,
       { status := "error", message := invalidActionMessage "banana",
         action_taken := "", done := false, game_state := none }) :=
  c5_invalid_action_rejected table1 "banana" (by decide)

theorem foldl_winner (l : List PlayerSt) (init : Option WinnerInfo) :
    l.foldl (fun acc p => if 0 < p.stack then
        some { name := p.name, seat := p.seat, final_stack := p.stack }
      else acc) init
      = (((l.filter (fun p => decide (0 < p.stack))).getLast?).map
          winnerInfoOf).or init := by
  induction l generalizing init with
  | nil => simp
  | cons x xs ih =>
    rw [List.foldl_cons, ih, List.filter_cons]
    by_cases hx : 0 < x.stack
    · rw [if_pos hx, if_pos (by simpa using hx), List.getLast?_cons]
      cases hgl : (xs.filter (fun p => decide (0 < p.stack))).getLast? with
      | none => simp [hgl, winnerInfoOf, Option.or]
      | some y => simp [hgl, Option.or]
    · rw [if_neg hx, if_neg (by simpa using hx)]

/-- C8: check_game_over on a finished table lists every player's final
stack in seat order and reports as winner the chip-holding player the
iteration saw last, i.e. the one with the largest seat index among those
with a positive stack (the last element of the stack-filtered player
list); with exactly one chip holder that holder is reported.  On an
unfinished table the winner is None and the final-stack list empty. -/
theorem c8_check_game_over (t : GameState) :
    check_game_over (some t) =
      if t.done then
        { status := "success", message := "", game_over := true,
          winner := (((t.players.filter
            (fun p => decide (0 < p.stack))).getLast?).map winnerInfoOf),
          final_stacks := t.players.map finalStackOf }
      else
        { status := "success", message := "", game_over := false,
          winner := none, final_stacks := [] } := by
  unfold check_game_over
  cases hd : t.done with
  | false => simp [hd]
  | true =>
    simp only [hd, if_true, if_pos]
    simp only [GameOverResult.mk.injEq, true_and, and_true]
    constructor
    · rw [foldl_winner, Option.or_none]
    · rfl

/-- C9: with no game initialized (the module global holds no table) every
tool call — get_game_state, process_player_action, check_game_over,
get_player_hand, get_legal_actions and calculate_pot_odds — returns the
error dict with message Game not initialized, and no engine operation
takes place (process_player_action hands back no table). -/
theorem c9_uninitialized_errors (name : String) (seat : Int) :
    get_game_state none = GameStateView.err "Game not initialized" ∧
    (get_game_state none).status = "error" ∧
    (get_game_state none).message = "Game not initialized" ∧
    process_player_action none name =
      (none, { status := "error", message := "Game not initialized",
               action_taken := "", done := false, game_state := none }) ∧
    check_game_over none =
      { status := "error", message := "Game not initialized",
        game_over := false, winner := none, final_stacks := [] } ∧
    get_player_hand none seat =
      { status := "error", message := "Game not initialized",
        player_name := "", seat := 0, hand_cards := [], stack := 0 } ∧
    get_legal_actions none =
      { status := "error", message := "Game not initialized",
        legal_actions := [], current_player := none,
        current_player_seat := none, min_call := 0, current_bet := 0 } ∧
    calculate_pot_odds none =
      { status := "error", message := "Game not initialized",
        total_pot := 0, call_amount := 0, pot_odds := none,
        pot_odds_percentage := 0, current_player := none } :=
  ⟨rfl, rfl, rfl, rfl, rfl, rfl, rfl, rfl⟩

/-- C10: calculate_pot_odds never divides by zero — on a table with
non-negative pots, a positive minimum call yields pot_odds equal to
total_pot / min_call and the percentage min_call / (total_pot + min_call)
times 100 rounded to two decimals, while a zero minimum call yields the
infinity marker and a zero percentage. -/
theorem c10_pot_odds (t : GameState)
    (hnn : 0 ≤ t.communityPot + t.currentRoundPot) :
    (0 < t.minCall →
      calculate_pot_odds (some t) =
        { status := "success", message := "",
          total_pot := t.communityPot + t.currentRoundPot,
          call_amount := t.minCall,
          pot_odds := (some (((t.communityPot + t.currentRoundPot : Int) : ℚ)
            / ((t.minCall : Int) : ℚ))),
          pot_odds_percentage := (roundTo2 (((t.minCall : Int) : ℚ)
            / (((t.communityPot + t.currentRoundPot : Int) : ℚ)
              + ((t.minCall : Int) : ℚ)) * 100)),
          current_player :=
            if t.currentPlayer < t.players.length then
              some (t.players.getD t.currentPlayer default).name
            else none }) ∧
    (t.minCall = 0 →
      (calculate_pot_odds (some t)).pot_odds = none ∧
      (calculate_pot_odds (some t)).pot_odds_percentage = 0) := by
  constructor
  · intro hpos
    unfold calculate_pot_odds
    dsimp only
    rw [if_pos hpos, if_neg (by omega)]
  · intro h0
    unfold calculate_pot_odds
    dsimp only
    rw [if_neg (by omega)]
    exact ⟨rfl, rfl⟩

/-- Witness for C10: the concrete freshly initialized table has pot 3 and
minimum call 1, and the reported pot odds follow the formulas. -/
theorem c10_pot_odds_witness :
    (0 < table1.minCall →
      calculate_pot_odds (some table1) =
        { status := "success", message := "",
          total_pot := table1.communityPot + table1.currentRoundPot,
          call_amount := table1.minCall,
          pot_odds := (some (((table1.communityPot +
            table1.currentRoundPot : Int) : ℚ)
            / ((table1.minCall : Int) : ℚ))),
          pot_odds_percentage := (roundTo2 (((table1.minCall : Int) : ℚ)
            / (((table1.communityPot + table1.currentRoundPot : Int) : ℚ)
              + ((table1.minCall : Int) : ℚ)) * 100)),
          current_player :=
            if table1.currentPlayer < table1.players.length then
              some (table1.players.getD table1.currentPlayer default).name
            else none }) ∧
    (table1.minCall = 0 →
      (calculate_pot_odds (some table1)).pot_odds = none ∧
      (calculate_pot_odds (some table1)).pot_odds_percentage = 0) :=
  c10_pot_odds table1 (by decide)

end Poker
